import Mathlib

/-!
Verification of the transcription pipeline of the Transkrip-Audio-ke-Teks
server.  The definitions below are a shallow embedding of the JavaScript
sources:

* `server/services/transcriptionQueue.js` — the job queue / scheduler
  (`TranscriptionQueue`): stage-weighted progress (`updateJobProgress`),
  the per-tick admission loop (`processQueue`), the per-job pipeline
  (`processJob` with its stages and error handling via `handleJobError`),
  provider fallback (`transcribeAudio`) and cancellation (`cancelJob`).
* `whisperService.js` — segment merging after chunked transcription
  (`mergeCloseSegments`).
* `speakerDiarizationService.js` — the diarization engine: speech-rate
  feature (`calculateSpeechRate`), smoothing of speaker transitions
  (`smoothSpeakerTransitions`), silhouette-based cluster-count selection
  (`findOptimalClusters`, `evaluateClusterQuality`).

JavaScript numbers are modelled as rationals (ℚ) except where the code
takes square roots (Euclidean distances in the diarization engine), which
are modelled over ℝ.
-/

/-! ## Stage-weighted progress (transcriptionQueue.js, updateJobProgress) -/

/-- Stage names of a job, exactly the keys of `job.stages` created in
`addJob` (upload is created already completed). -/
inductive StageName where
  | upload
  | processing
  | transcription
  | diarization
  | finalization
deriving DecidableEq, Repr

/-- All five stage keys, in the order `addJob` creates them. -/
def StageName.all : List StageName :=
  [.upload, .processing, .transcription, .diarization, .finalization]

/-- Fixed stage weights from `updateJobProgress`:
upload 10, processing 10, transcription 60, diarization 15, finalization 5. -/
def stageWeights : StageName → ℚ
  | .upload => 10
  | .processing => 10
  | .transcription => 60
  | .diarization => 15
  | .finalization => 5

/-- Per-stage `progress` values of one job (the `progress` field of each
`job.stages[stageName]`). -/
structure Stages where
  upload : ℚ
  processing : ℚ
  transcription : ℚ
  diarization : ℚ
  finalization : ℚ
deriving DecidableEq, Repr

/-- Read one stage's progress value. -/
def Stages.get (s : Stages) : StageName → ℚ
  | .upload => s.upload
  | .processing => s.processing
  | .transcription => s.transcription
  | .diarization => s.diarization
  | .finalization => s.finalization

/-- Overwrite one stage's progress value
(`job.stages[stage].progress = progress`). -/
def Stages.set (s : Stages) : StageName → ℚ → Stages
  | .upload, p => { s with upload := p }
  | .processing, p => { s with processing := p }
  | .transcription, p => { s with transcription := p }
  | .diarization, p => { s with diarization := p }
  | .finalization, p => { s with finalization := p }

/-- Overall progress before rounding:
`totalProgress += (stageProgress * stageWeights[stageName]) / 100` over all
stage keys. -/
def overallProgress (s : Stages) : ℚ :=
  (StageName.all.map (fun st => s.get st * stageWeights st / 100)).sum

/-- Rounded overall progress, `job.progress = Math.round(totalProgress)`.
`Math.round` rounds half away from zero towards +∞, as Mathlib's `round`
does on positive halves. -/
def roundedProgress (s : Stages) : ℤ :=
  round (overallProgress s)

/-- One call of `updateJobProgress job stage status progress`, restricted to
its effect on the progress data: the stage value is overwritten and the new
rounded overall progress is emitted as `overallProgress` of the
`job-progress` event. -/
def updateJobProgress (s : Stages) (stage : StageName) (progress : ℚ) : Stages × ℤ :=
  let s2 := s.set stage progress
  (s2, roundedProgress s2)

/-- The stage-progress record `addJob` creates: upload completed at 100, all
other stages pending at 0. -/
def initialStages : Stages :=
  ⟨100, 0, 0, 0, 0⟩

/-! ## Job pipeline and error handling (transcriptionQueue.js) -/

/-- Job status values that `transcriptionQueue.js` assigns: jobs are created
`queued`, set to `completed` at the end of `processJob`, to `failed` by
`handleJobError`, and to `cancelled` by `cancelJob` on a processing job. -/
inductive JobStatus where
  | queued
  | completed
  | failed
  | cancelled
deriving DecidableEq, Repr

/-- The part of a job record that the lifecycle claims are about. -/
structure Job where
  id : String
  status : JobStatus
  error : Option String
deriving DecidableEq, Repr

/-- Mirror of `handleJobError(job, error)`: sets `status = 'failed'` and
records `error.message`. -/
def handleJobError (j : Job) (e : String) : Job :=
  { j with status := .failed, error := some e }

/-- Mirror of `transcribeAudio`.  `providers` gives each speech service's
result on this audio; the `switch` selects the primary service (an
unsupported name throws inside the `try`), and the `catch` retries exactly
once against `this.speechServices.whisper`.  A second throw propagates to
the caller. -/
def primaryTranscription {TR : Type} (service : String)
    (providers : String → Except String TR) : Except String TR :=
  if service = "whisper" then providers "whisper"
  else if service = "google" then providers "google"
  else if service = "azure" then providers "azure"
  else .error ("Unsupported speech service: " ++ service)

/-- The fallback in `transcribeAudio`'s catch: a primary throw is answered
by exactly one retry against the Whisper service; its outcome (or second
throw) is the call's outcome. -/
def transcribeAudio {TR : Type} (service : String) (providers : String → Except String TR) :
    Except String TR :=
  match primaryTranscription service providers with
  | .ok r => .ok r
  | .error _ => providers "whisper"

/-- Mirror of `processJob` wrapped in `processQueue`'s `try/catch`: the four
stages run strictly in order; the first stage that throws sends the error to
`handleJobError`; if every stage succeeds the job is unconditionally set to
`completed`.  No point of the pipeline reads `job.status`, so a cancellation
flag set concurrently is never checked. -/
def runJob {TR DR : Type} (j : Job) (audioResult : Except String Unit) (service : String)
    (providers : String → Except String TR) (diarize : TR → Except String DR)
    (finalize : DR → Except String Unit) : Job :=
  match audioResult with
  | .error e => handleJobError j e
  | .ok _ =>
    match transcribeAudio service providers with
    | .error e => handleJobError j e
    | .ok tr =>
      match diarize tr with
      | .error e => handleJobError j e
      | .ok dr =>
        match finalize dr with
        | .error e => handleJobError j e
        | .ok _ => { j with status := JobStatus.completed }

/-! ## Scheduler state (transcriptionQueue.js: queue, processing, cancelJob) -/

/-- Scheduler state: the pending `queue` (a JS array used FIFO), the
`processing` map (modelled as a list of jobs with distinct ids), and the
`maxConcurrent` configuration. -/
structure SchedState where
  queue : List Job
  processing : List Job
  maxConcurrent : ℕ
deriving Repr

/-- Mirror of `this.queue.splice(queueIndex, 1)` after
`findIndex(job => job.id === jobId)`: drop the first job with the given id.
The removed job object is discarded; its status field is not changed. -/
def removeFirstById : List Job → String → List Job
  | [], _ => []
  | j :: rest, jobId => if j.id = jobId then rest else j :: removeFirstById rest jobId

/-- Mirror of `cancelJob(jobId)`: if the job is still queued it is spliced
out of the queue and `true` is returned (without touching its status); if it
is in the `processing` map its status is set to `cancelled` and `true` is
returned; otherwise (e.g. an already completed job) `false`. -/
def cancelJob (s : SchedState) (jobId : String) : Bool × SchedState :=
  if s.queue.any (fun j => j.id = jobId) then
    (true, { s with queue := removeFirstById s.queue jobId })
  else if s.processing.any (fun j => j.id = jobId) then
    (true, { s with processing :=
      s.processing.map (fun j => if j.id = jobId then { j with status := .cancelled } else j) })
  else
    (false, s)

/-- Mirror of one `processQueue()` tick's admission decision: return
unchanged when `processing.size >= maxConcurrent` or the queue is empty;
otherwise `shift()` the queue head into the `processing` map. -/
def processQueue (s : SchedState) : SchedState :=
  if s.maxConcurrent ≤ s.processing.length ∨ s.queue = [] then s
  else
    match s.queue with
    | [] => s
    | j :: rest => { s with queue := rest, processing := j :: s.processing }

/-- Mirror of `addJob`: push the new job (with a fresh uuid) onto the queue. -/
def addJob (s : SchedState) (j : Job) : SchedState :=
  { s with queue := s.queue ++ [j] }

/-- Mirror of the `finally { this.processing.delete(job.id) }` in
`processQueue`'s job runner. -/
def finishJob (s : SchedState) (jobId : String) : SchedState :=
  { s with processing := s.processing.filter (fun j => j.id ≠ jobId) }

/-- Scheduler transitions: job submission (with a fresh uuid, which never
collides with an id already present), a scheduling tick, job completion
removal, and cancellation. -/
inductive SchedStep : SchedState → SchedState → Prop where
  | add (s : SchedState) (j : Job)
      (fresh : ∀ k ∈ s.queue ++ s.processing, k.id ≠ j.id) :
      SchedStep s (addJob s j)
  | tick (s : SchedState) : SchedStep s (processQueue s)
  | finish (s : SchedState) (jobId : String) : SchedStep s (finishJob s jobId)
  | cancel (s : SchedState) (jobId : String) : SchedStep s (cancelJob s jobId).2

/-- States reachable from the initial scheduler state (empty queue, empty
processing map, configured bound). -/
def SchedReachable (maxC : ℕ) (s : SchedState) : Prop :=
  Relation.ReflTransGen SchedStep ⟨[], [], maxC⟩ s

/-! ## Segments and merge after chunked transcription (whisperService.js) -/

/-- Word record as produced by `formatWhisperResponse`. -/
structure Word where
  text : String
  start : ℚ
  «end» : ℚ
  confidence : ℚ
deriving DecidableEq, Repr

/-- Transcript segment as produced by `formatWhisperResponse` /
consumed by `mergeCloseSegments`.  `words` is `none` when the JS field is
absent (`undefined`), `some ws` when it is an array (possibly empty). -/
structure Segment where
  id : ℕ
  start : ℚ
  «end» : ℚ
  text : String
  confidence : ℚ
  words : Option (List Word)
deriving DecidableEq, Repr

/-- The in-place merge of `current` into `previous` inside
`mergeCloseSegments`: the end time becomes `current.end`, texts are joined
with a single space, the word arrays are concatenated when both are present
(`if (previous.words && current.words)`), and the confidence becomes the
arithmetic mean of the two confidences. -/
def mergeTwo (previous current : Segment) : Segment :=
  { previous with
    «end» := current.«end»
    text := previous.text ++ " " ++ current.text
    words :=
      match previous.words, current.words with
      | some a, some b => some (a ++ b)
      | w, _ => w
    confidence := (previous.confidence + current.confidence) / 2 }

/-- The loop of `mergeCloseSegments`: `previous` is the last element of the
`merged` array; a current segment whose gap `current.start - previous.end`
is at most `maxGap` is folded into it, otherwise it starts a new merged
segment. -/
def mergeGo (maxGap : ℚ) (previous : Segment) : List Segment → List Segment
  | [] => [previous]
  | current :: rest =>
    if current.start - previous.«end» ≤ maxGap then
      mergeGo maxGap (mergeTwo previous current) rest
    else
      previous :: mergeGo maxGap current rest

/-- The final re-indexing pass of `mergeCloseSegments`:
`merged.forEach((segment, index) => segment.id = index)`. -/
def reindexSegments (segments : List Segment) : List Segment :=
  segments.enum.map (fun p => { p.2 with id := p.1 })

/-- Mirror of `mergeCloseSegments(segments, maxGap)` (the source defaults
`maxGap` to `1.0`): an empty list is returned unchanged, otherwise adjacent
segments closer than `maxGap` are merged and the result re-indexed from 0. -/
def mergeCloseSegments (maxGap : ℚ) : List Segment → List Segment
  | [] => []
  | s :: rest => reindexSegments (mergeGo maxGap s rest)

/-! ## Diarization: speech rate and smoothing (speakerDiarizationService.js) -/

/-- Mirror of `calculateSpeechRate(segment)`: word count per second of the
segment, `0` when the duration is not strictly positive.  The word count is
`segment.words.length` when a words array is present (a JS empty array is
truthy, so `some []` counts 0) and the length of `segment.text.split(' ')`
otherwise (splitting "" gives one empty piece, as in JS). -/
def calculateSpeechRate (segment : Segment) : ℚ :=
  let duration := segment.«end» - segment.start
  let wordCount : ℚ :=
    match segment.words with
    | some ws => ws.length
    | none => (segment.text.splitOn " ").length
  if 0 < duration then wordCount / duration else 0

/-- Diarized segment: a transcript segment spread together with the
`speaker` and `speakerConfidence` fields added by
`assignSpeakersToSegments`. -/
structure DiarizedSegment where
  id : ℕ
  start : ℚ
  «end» : ℚ
  text : String
  confidence : ℚ
  words : Option (List Word)
  speaker : String
  speakerConfidence : ℚ
deriving DecidableEq, Repr

/-- The body of `smoothSpeakerTransitions`' loop, walking the array from
index 1 while there is a following element.  `previous` is the element at
`i - 1` as already updated by earlier iterations; the next element is read
before it is itself visited.  A short (< 2s), low-confidence (< 0.8)
segment sandwiched between two segments of one other speaker is reassigned
to that speaker with confidence 0.6. -/
def smoothGo (previous : DiarizedSegment) :
    List DiarizedSegment → List DiarizedSegment
  | [] => []
  | [current] => [current]
  | current :: next :: rest =>
    let current2 :=
      if previous.speaker = next.speaker ∧ current.speaker ≠ previous.speaker ∧
          current.«end» - current.start < 2 ∧ current.speakerConfidence < 0.8 then
        { current with speaker := previous.speaker, speakerConfidence := 0.6 }
      else current
    current2 :: smoothGo current2 (next :: rest)

/-- Mirror of `smoothSpeakerTransitions(segments)`: the first and last
segments are never changed; interior segments are visited left to right. -/
def smoothSpeakerTransitions : List DiarizedSegment → List DiarizedSegment
  | [] => []
  | first :: rest => first :: smoothGo first rest

/-! ## Diarization: clustering quality and auto cluster-count selection
(speakerDiarizationService.js).  Distances take square roots, so this part
is modelled over ℝ. -/

/-- Per-segment feature object built by `extractAudioFeatures`, restricted
to `segmentId` and the five numeric keys of `featureKeys` that
`calculateDistance` reads (`duration`, `speechRate`, `pitch`, `energy`,
`spectralCentroid`).  The last three are produced by `Math.random()` in the
source; here they are arbitrary reals. -/
structure Feature where
  segmentId : ℕ
  duration : ℝ
  speechRate : ℝ
  pitch : ℝ
  energy : ℝ
  spectralCentroid : ℝ

/-- Mirror of `calculateDistance(feature1, feature2)`: Euclidean distance
over the fixed `featureKeys`. -/
noncomputable def calculateDistance (f g : Feature) : ℝ :=
  Real.sqrt ((f.duration - g.duration) ^ 2 + (f.speechRate - g.speechRate) ^ 2 +
    (f.pitch - g.pitch) ^ 2 + (f.energy - g.energy) ^ 2 +
    (f.spectralCentroid - g.spectralCentroid) ^ 2)

/-- A cluster as consumed by `evaluateClusterQuality` and
`findOptimalClusters`: only the `features` member array is read by these
functions (the source object also carries `id`, `centroid` and `size`). -/
structure Cluster where
  features : List Feature

/-- Mirror of `averageIntraClusterDistance(feature, cluster)`: mean distance
to the other features of the cluster (compared by `segmentId`), `0` for a
cluster with at most one member or no other member. -/
noncomputable def averageIntraClusterDistance (f : Feature) (cluster : Cluster) : ℝ :=
  if cluster.features.length ≤ 1 then 0
  else
    let others := cluster.features.filter (fun g => g.segmentId ≠ f.segmentId)
    if 0 < others.length then (others.map (calculateDistance f)).sum / others.length
    else 0

/-- Mirror of `nearestClusterDistance(feature, clusters, excludeClusterIdx)`:
minimum distance to any feature of any other cluster, `0` when there is no
such feature (the `Infinity` sentinel survives). -/
noncomputable def nearestClusterDistance (f : Feature) (clusters : List Cluster)
    (excludeClusterIdx : ℕ) : ℝ :=
  let ds := (((clusters.enum.filter (fun p => p.1 ≠ excludeClusterIdx)).map
    (fun p => p.2.features)).flatten).map (calculateDistance f)
  match ds with
  | [] => 0
  | d :: rest => rest.foldl min d

open Classical in
/-- Silhouette of one point inside `evaluateClusterQuality`'s double loop:
`b !== 0 ? (b - a) / Math.max(a, b) : 0`.  Note that a point alone in its
cluster gets `a = 0` and hence silhouette `1` whenever `b ≠ 0`. -/
noncomputable def silhouetteOfPoint (clusters : List Cluster) (clusterIdx : ℕ)
    (cluster : Cluster) (f : Feature) : ℝ :=
  let a := averageIntraClusterDistance f cluster
  let b := nearestClusterDistance f clusters clusterIdx
  if b ≠ 0 then (b - a) / max a b else 0

/-- Mirror of `evaluateClusterQuality(clusters, features)`: mean silhouette
over all points of all clusters (`features`, the second source argument, is
not read by the body). -/
noncomputable def evaluateClusterQuality (clusters : List Cluster) : ℝ :=
  let totalPoints : ℕ := (clusters.map (fun c => c.features.length)).sum
  let totalSilhouette : ℝ :=
    (clusters.enum.map
      (fun p => ((p.2.features.map (silhouetteOfPoint clusters p.1 p.2)).sum))).sum
  if 0 < totalPoints then totalSilhouette / totalPoints else 0

open Classical in
/-- One iteration of `findOptimalClusters`' loop over `k`.  `kmeans k`
stands for `this.kMeansClustering(features, k)`, whose random centroid
initialization makes it nondeterministic; it is a parameter here, so each
statement below holds for every resolution of that randomness.  `none` models
`bestScore = -Infinity` (any real score beats it). -/
noncomputable def findOptimalStep (kmeans : ℕ → List Cluster)
    (best : Option (ℝ × List Cluster)) (k : ℕ) : Option (ℝ × List Cluster) :=
  let clusters := kmeans k
  let score := evaluateClusterQuality clusters
  match best with
  | none => some (score, clusters)
  | some (bestScore, bestClusters) =>
    if bestScore < score then some (score, clusters) else some (bestScore, bestClusters)

/-- Mirror of `findOptimalClusters(features, minK, maxK)`: run k-means for
every `k` from `minK` to `maxK` inclusive, keep the clustering with the
strictly best `evaluateClusterQuality` score (so ties keep the earlier,
smaller `k`), and fall back to `kMeansClustering(features, 2)` when the
loop never ran. -/
noncomputable def findOptimalClusters (kmeans : ℕ → List Cluster) (minK maxK : ℕ) :
    List Cluster :=
  match (List.range' minK (maxK + 1 - minK)).foldl (findOptimalStep kmeans) none with
  | some best => best.2
  | none => kmeans 2

/-- Fixed jobs and stage results used by the concrete lifecycle theorems. -/
def providersOk : String → Except String Unit := fun _ => .ok ()

/-- A job as it sits in the `processing` map while its pipeline runs. -/
def runningJob : Job := ⟨"job-1", .queued, none⟩

/-- Scheduler state with `runningJob` currently processing. -/
def schedWithRunning : SchedState := ⟨[], [runningJob], 3⟩

/-- Scheduler state with `runningJob` still queued. -/
def schedWithQueued : SchedState := ⟨[runningJob], [], 3⟩

/-- Word of the first example segment. -/
def wordHalo : Word := ⟨"halo", 0, 5000, 0.9⟩

/-- Word of the second example segment. -/
def wordDunia : Word := ⟨"dunia", 5500, 9000, 0.7⟩

/-- Example segment `{start: 0, end: 5000}` of the spec's merge test. -/
def seg0to5000 : Segment := ⟨0, 0, 5000, "halo", 0.9, some [wordHalo]⟩

/-- Example segment `{start: 5500, end: 9000}` (gap 500 to the first). -/
def seg5500to9000 : Segment := ⟨1, 5500, 9000, "dunia", 0.7, some [wordDunia]⟩

/-- Example segment starting at 6500 (gap 1500 to the first). -/
def seg6500to9000 : Segment := ⟨1, 6500, 9000, "dunia", 0.7, some [wordDunia]⟩

/-- The merge of the first two example segments: `{start: 0, end: 9000}`,
texts space-joined, words concatenated, confidence the mean of 0.9 and
0.7. -/
def mergedSeg0to9000 : Segment := ⟨0, 0, 9000, "halo dunia", 0.8, some [wordHalo, wordDunia]⟩

/-- A 10s segment of speaker 1 before the flickering segment. -/
def segSpeakerA1 : DiarizedSegment := ⟨0, 0, 10, "a", 0.9, none, "speaker_1", 0.9⟩

/-- A 1.5s segment attributed to speaker 2 with confidence 0.5. -/
def segSpeakerB : DiarizedSegment := ⟨1, 10, 11.5, "b", 0.9, none, "speaker_2", 0.5⟩

/-- The same 1.5s segment with confidence 0.9. -/
def segSpeakerBConfident : DiarizedSegment := ⟨1, 10, 11.5, "b", 0.9, none, "speaker_2", 0.9⟩

/-- A 10s segment of speaker 1 after the flickering segment. -/
def segSpeakerA2 : DiarizedSegment := ⟨2, 11.5, 21.5, "c", 0.9, none, "speaker_1", 0.9⟩

/-- Helper: ids of all jobs known to the scheduler, queued first. -/
def schedIds (s : SchedState) : List String :=
  (s.queue ++ s.processing).map Job.id

/-- Helper: the scheduler's inductive invariant — the running set respects
the concurrency bound and all known job ids are pairwise distinct. -/
def SchedInv (s : SchedState) : Prop :=
  s.processing.length ≤ s.maxConcurrent ∧ (schedIds s).Nodup

/-- Job used by the scheduler witness. -/
def jobW : Job := ⟨"w-1", .queued, none⟩

/-- Scheduler state after submitting one job and one tick. -/
def schedW : SchedState := processQueue (addJob ⟨[], [], 2⟩ jobW)

/-- Helper: the score `findOptimalClusters` compares for a given `k`. -/
noncomputable def clusterScore (kmeans : ℕ → List Cluster) (k : ℕ) : ℝ :=
  evaluateClusterQuality (kmeans k)

/-- A feature point that differs from the others only in the `pitch`
coordinate: all distances between such points are plain absolute
differences. -/
noncomputable def pitchFeature (i : ℕ) (x : ℝ) : Feature := ⟨i, 0, 0, x, 0, 0⟩

/-- First point of the first well-separated cluster (pitch 0). -/
noncomputable def fA : Feature := pitchFeature 0 0

/-- Second point of the first well-separated cluster (pitch 1). -/
noncomputable def fB : Feature := pitchFeature 1 1

/-- First point of the second well-separated cluster (pitch 10). -/
noncomputable def fC : Feature := pitchFeature 2 10

/-- Second point of the second well-separated cluster (pitch 11). -/
noncomputable def fD : Feature := pitchFeature 3 11

/-- A resolution of the randomized k-means on the four points `fA fB fC fD`
returning the natural partition for each requested `k` (for `k = 4` the
all-singletons partition, the global k-means optimum on four distinct
points). -/
noncomputable def kmeansNat : ℕ → List Cluster
  | 3 => [⟨[fA, fB]⟩, ⟨[fC]⟩, ⟨[fD]⟩]
  | 4 => [⟨[fA]⟩, ⟨[fB]⟩, ⟨[fC]⟩, ⟨[fD]⟩]
  | _ => [⟨[fA, fB]⟩, ⟨[fC, fD]⟩]

/-! ## Theorems -/

/-- Helper: the unrounded overall progress written out over the five stage
fields. -/
theorem overallProgress_eq (s : Stages) :
    overallProgress s =
      (s.upload * 10 + s.processing * 10 + s.transcription * 60 +
        s.diarization * 15 + s.finalization * 5) / 100 := by
  simp [overallProgress, StageName.all, Stages.get, stageWeights]
  ring

/-- C5: the per-stage weights used by `updateJobProgress` sum to 100, and
whenever every recorded stage progress lies in [0, 100] (the `StageState`
data-model invariant), the computed overall job progress — the weighted sum
divided by 100 — lies in [0, 100], both before and after the
`Math.round`. -/
theorem stageWeights_sum_and_overall_bounds (s : Stages)
    (h : ∀ st : StageName, 0 ≤ s.get st ∧ s.get st ≤ 100) :
    (StageName.all.map stageWeights).sum = 100 ∧
    0 ≤ overallProgress s ∧ overallProgress s ≤ 100 ∧
    0 ≤ roundedProgress s ∧ roundedProgress s ≤ 100 := by
  have hu := h .upload
  have hp := h .processing
  have ht := h .transcription
  have hd := h .diarization
  have hf := h .finalization
  simp only [Stages.get] at hu hp ht hd hf
  have h0 : 0 ≤ overallProgress s := by
    rw [overallProgress_eq]
    have : 0 ≤ s.upload * 10 + s.processing * 10 + s.transcription * 60 +
        s.diarization * 15 + s.finalization * 5 := by nlinarith [hu.1, hp.1, ht.1, hd.1, hf.1]
    positivity
  have h100 : overallProgress s ≤ 100 := by
    rw [overallProgress_eq]
    rw [div_le_iff₀ (by norm_num : (0:ℚ) < 100)]
    nlinarith [hu.2, hp.2, ht.2, hd.2, hf.2]
  refine ⟨by norm_num [StageName.all, stageWeights], h0, h100, ?_, ?_⟩
  · rw [roundedProgress, round_eq, Int.le_floor]
    push_cast
    linarith
  · have : roundedProgress s < 101 := by
      rw [roundedProgress, round_eq, Int.floor_lt]
      push_cast
      linarith
    omega

/-- Witness for C5 at the freshly created stage record. -/
theorem stageWeights_sum_and_overall_bounds_witness :
    (StageName.all.map stageWeights).sum = 100 ∧
    0 ≤ overallProgress initialStages ∧ overallProgress initialStages ≤ 100 ∧
    0 ≤ roundedProgress initialStages ∧ roundedProgress initialStages ≤ 100 :=
  stageWeights_sum_and_overall_bounds initialStages
    (by intro st; cases st <;> exact ⟨by norm_num [Stages.get, initialStages], by norm_num [Stages.get, initialStages]⟩)

/-- C4 counterexample: the emitted overall progress is not monotone.  The
sequence of `updateJobProgress` calls below is the provider-fallback path of
`transcribeAudio`: audio processing completes (stage `processing` set to
100), the primary provider's progress callback reports 80 for the
`transcription` stage, the primary then throws and the Whisper fallback's
first callback reports 5 for the same stage.  The overall progress emitted
with the last update (23) is lower than the previously emitted value
(68). -/
theorem progress_drop_on_fallback_cex :
    (updateJobProgress
        ((updateJobProgress
            ((updateJobProgress initialStages .processing 100).1) .transcription 80).1)
        .transcription 5).2 <
      (updateJobProgress
          ((updateJobProgress initialStages .processing 100).1) .transcription 80).2 := by
  simp only [updateJobProgress, initialStages, Stages.set, roundedProgress, overallProgress_eq]
  norm_num [round_eq]

/-- C4 amended: a single `updateJobProgress` call never lowers the overall
progress provided the new per-stage value is at least the stage's previous
value; monotonicity of the overall value therefore holds exactly when every
per-stage progress sequence is itself non-decreasing, which the
provider-fallback path violates. -/
theorem updateJobProgress_monotone (s : Stages) (stage : StageName) (p : ℚ)
    (h : s.get stage ≤ p) :
    overallProgress s ≤ overallProgress (s.set stage p) ∧
    roundedProgress s ≤ (updateJobProgress s stage p).2 := by
  have hq : overallProgress s ≤ overallProgress (s.set stage p) := by
    cases stage <;>
      (simp only [Stages.get] at h) <;>
      (rw [overallProgress_eq, overallProgress_eq]) <;>
      (simp only [Stages.set]) <;>
      linarith
  refine ⟨hq, ?_⟩
  show roundedProgress s ≤ roundedProgress (s.set stage p)
  rw [roundedProgress, roundedProgress, round_eq, round_eq]
  exact Int.floor_le_floor (by linarith)

/-- Witness for C4's amended statement: raising the transcription stage from
0 to 100 does not lower the overall progress. -/
theorem updateJobProgress_monotone_witness :
    overallProgress initialStages ≤
      overallProgress (initialStages.set .transcription 100) ∧
    roundedProgress initialStages ≤
      (updateJobProgress initialStages .transcription 100).2 :=
  updateJobProgress_monotone initialStages .transcription 100 (by norm_num [Stages.get, initialStages])

/-- C10: `calculateSpeechRate` is total.  When the segment duration
`end - start` is not strictly positive the guard returns 0 instead of
dividing; when it is positive the result is the word count — the length of
the words array when one is present, the length of the space-split text
otherwise — divided by the duration. -/
theorem calculateSpeechRate_total (segment : Segment) :
    (segment.«end» - segment.start ≤ 0 → calculateSpeechRate segment = 0) ∧
    (0 < segment.«end» - segment.start →
      calculateSpeechRate segment =
        (match segment.words with
          | some ws => (ws.length : ℚ)
          | none => ((segment.text.splitOn " ").length : ℚ)) /
          (segment.«end» - segment.start)) := by
  constructor
  · intro h
    rw [calculateSpeechRate, if_neg (by linarith)]
  · intro h
    rw [calculateSpeechRate, if_pos h]

/-- C1 (evaluation at the failing input): `cancelJob` on a running job
returns `true` and sets its status to `cancelled`, but the pipeline never
reads that flag — run to the end with every stage succeeding, the job's
status is overwritten to `completed`, not `cancelled`.  On a queued job
`cancelJob` returns `true` and splices the job out, but no job is ever
marked `cancelled` (the scheduler simply forgets the object).  On a job in
neither structure — e.g. one already completed — `cancelJob` returns
`false`, as the claim states. -/
theorem cancel_flag_never_checked :
    (cancelJob schedWithRunning "job-1").1 = true ∧
    (cancelJob schedWithRunning "job-1").2.processing.map Job.status = [.cancelled] ∧
    (runJob (⟨"job-1", .cancelled, none⟩ : Job) (.ok ()) "whisper" providersOk
        (fun _ => (.ok () : Except String Unit)) (fun _ => .ok ())).status = .completed ∧
    cancelJob schedWithQueued "job-1" = (true, ⟨[], [], 3⟩) ∧
    (cancelJob ⟨[], [], 3⟩ "job-1").1 = false := by
  refine ⟨rfl, rfl, rfl, ?_, rfl⟩
  rw [cancelJob]
  rfl

/-- C2 counterexample: when the diarization stage throws, the job does not
collapse segments to a single default speaker and complete — the error
propagates to `processQueue`'s catch and the job ends `failed` (and hence
not `completed`). -/
theorem diarization_failure_cex :
    (runJob runningJob (.ok ()) "whisper" providersOk
        (fun _ => (.error "Speaker diarization failed: boom" : Except String Unit))
        (fun _ => .ok ())).status = .failed ∧
    (runJob runningJob (.ok ()) "whisper" providersOk
        (fun _ => (.error "Speaker diarization failed: boom" : Except String Unit))
        (fun _ => .ok ())).status ≠ .completed := by
  exact ⟨rfl, by rw [show (runJob runningJob (.ok ()) "whisper" providersOk
    (fun _ => (.error "Speaker diarization failed: boom" : Except String Unit))
    (fun _ => .ok ())).status = .failed from rfl]; intro hc; cases hc⟩

/-- C2 amended: when transcription succeeded and the diarization stage
throws, `performSpeakerDiarization` has no handler, so the error reaches
`handleJobError`: the job ends `failed` with the diarization error
recorded — it is not treated as non-fatal. -/
theorem diarization_failure_fails_job {TR DR : Type} (j : Job) (service : String)
    (providers : String → Except String TR) (tr : TR) (e : String)
    (diarize : TR → Except String DR) (finalize : DR → Except String Unit)
    (htrans : transcribeAudio service providers = .ok tr)
    (hdiar : diarize tr = .error e) :
    runJob j (.ok ()) service providers diarize finalize = handleJobError j e ∧
    (runJob j (.ok ()) service providers diarize finalize).status = .failed ∧
    (runJob j (.ok ()) service providers diarize finalize).error = some e := by
  have hrun : runJob j (.ok ()) service providers diarize finalize = handleJobError j e := by
    simp [runJob, htrans, hdiar]
  exact ⟨hrun, by rw [hrun, handleJobError], by rw [hrun, handleJobError]⟩

/-- Witness for C2's amended statement at a concrete diarization failure. -/
theorem diarization_failure_fails_job_witness :
    runJob runningJob (.ok ()) "whisper" providersOk
        (fun _ => (.error "boom" : Except String Unit)) (fun _ => .ok ()) =
      handleJobError runningJob "boom" ∧
    (runJob runningJob (.ok ()) "whisper" providersOk
        (fun _ => (.error "boom" : Except String Unit)) (fun _ => .ok ())).status = .failed ∧
    (runJob runningJob (.ok ()) "whisper" providersOk
        (fun _ => (.error "boom" : Except String Unit)) (fun _ => .ok ())).error = some "boom" :=
  diarization_failure_fails_job runningJob "whisper" providersOk () "boom"
    (fun _ => .error "boom") (fun _ => .ok ()) rfl rfl

/-- C3: when the configured primary provider throws, `transcribeAudio`'s
catch block performs exactly one retry, against the Whisper default — the
transcription outcome is exactly the Whisper provider's single result, no
other provider is consulted — and when that retry also throws, the job ends
`failed` with the second (fallback) error recorded by `handleJobError`. -/
theorem provider_fallback_once {TR : Type} (service : String)
    (providers : String → Except String TR) (e1 : String)
    (hservice : service = "whisper" ∨ service = "google" ∨ service = "azure")
    (hprimary : providers service = .error e1) :
    transcribeAudio service providers = providers "whisper" ∧
    ∀ {DR : Type} (j : Job) (diarize : TR → Except String DR)
      (finalize : DR → Except String Unit) (e2 : String),
      providers "whisper" = .error e2 →
      (runJob j (.ok ()) service providers diarize finalize).status = .failed ∧
      (runJob j (.ok ()) service providers diarize finalize).error = some e2 := by
  have hps : primaryTranscription service providers = providers service := by
    rcases hservice with h | h | h <;> subst h
    · rw [primaryTranscription, if_pos rfl]
    · rw [primaryTranscription, if_neg (by decide), if_pos rfl]
    · rw [primaryTranscription, if_neg (by decide), if_neg (by decide), if_pos rfl]
  have hfall : transcribeAudio service providers = providers "whisper" := by
    rw [transcribeAudio, hps, hprimary]
  refine ⟨hfall, ?_⟩
  intro DR j diarize finalize e2 hwhisper
  have hrun : runJob j (.ok ()) service providers diarize finalize = handleJobError j e2 := by
    simp [runJob, hfall, hwhisper]
  exact ⟨by rw [hrun, handleJobError], by rw [hrun, handleJobError]⟩

/-- Witness for C3: azure primary fails, the Whisper fallback fails, the job
records the fallback's error. -/
theorem provider_fallback_once_witness :
    transcribeAudio "azure"
        (fun s => if s = "azure" then (.error "azure down" : Except String Unit)
          else .error "whisper down") =
      (fun s => if s = "azure" then (.error "azure down" : Except String Unit)
          else .error "whisper down") "whisper" ∧
    (runJob runningJob (.ok ()) "azure"
        (fun s => if s = "azure" then (.error "azure down" : Except String Unit)
          else .error "whisper down")
        (fun _ => (.ok () : Except String Unit)) (fun _ => .ok ())).status = .failed ∧
    (runJob runningJob (.ok ()) "azure"
        (fun s => if s = "azure" then (.error "azure down" : Except String Unit)
          else .error "whisper down")
        (fun _ => (.ok () : Except String Unit)) (fun _ => .ok ())).error =
      some "whisper down" := by
  have h := provider_fallback_once "azure"
    (fun s => if s = "azure" then (.error "azure down" : Except String Unit)
      else .error "whisper down") "azure down" (Or.inr (Or.inr rfl)) (by rfl)
  exact ⟨h.1, h.2 runningJob (fun _ => (.ok () : Except String Unit)) (fun _ => .ok ())
    "whisper down" (by rfl)⟩

/-- Helper: the re-indexing pass writes ids 0, 1, 2, … in order. -/
theorem reindexSegments_map_id (segments : List Segment) :
    (reindexSegments segments).map Segment.id = List.range segments.length := by
  rw [reindexSegments, List.map_map]
  have h : (Segment.id ∘ fun p : ℕ × Segment => { p.2 with id := p.1 }) = Prod.fst := by
    funext p
    rfl
  rw [h, List.enum_map_fst]

/-- Helper: `mergeCloseSegments` leaves the ids sequential from 0. -/
theorem mergeCloseSegments_map_id (g : ℚ) (ss : List Segment) :
    (mergeCloseSegments g ss).map Segment.id =
      List.range (mergeCloseSegments g ss).length := by
  cases ss with
  | nil => rfl
  | cons s rest =>
    rw [mergeCloseSegments, reindexSegments_map_id]
    congr 1
    rw [reindexSegments, List.length_map, List.enum_length]

/-- C7: `mergeCloseSegments` combines an adjacent pair whose gap
`next.start − previous.end` is at most the threshold into one segment from
the first's start to the second's end, text space-joined, word lists
concatenated, confidence the arithmetic mean; a pair with a larger gap
stays separate; ids are re-indexed sequentially from 0; and the spec's two
concrete examples with threshold 1000 behave as stated. -/
theorem mergeCloseSegments_spec :
    (∀ (g : ℚ) (s1 s2 : Segment), s2.start - s1.«end» ≤ g →
      mergeCloseSegments g [s1, s2] =
        [{ s1 with
            id := 0
            «end» := s2.«end»
            text := s1.text ++ " " ++ s2.text
            words :=
              match s1.words, s2.words with
              | some a, some b => some (a ++ b)
              | w, _ => w
            confidence := (s1.confidence + s2.confidence) / 2 }]) ∧
    (∀ (g : ℚ) (s1 s2 : Segment), g < s2.start - s1.«end» →
      mergeCloseSegments g [s1, s2] = [{ s1 with id := 0 }, { s2 with id := 1 }]) ∧
    (∀ (g : ℚ) (ss : List Segment),
      (mergeCloseSegments g ss).map Segment.id =
        List.range (mergeCloseSegments g ss).length) ∧
    mergeCloseSegments 1000 [seg0to5000, seg5500to9000] = [mergedSeg0to9000] ∧
    mergeCloseSegments 1000 [seg0to5000, seg6500to9000] =
      [{ seg0to5000 with id := 0 }, { seg6500to9000 with id := 1 }] := by
  have hpair : ∀ (g : ℚ) (s1 s2 : Segment), s2.start - s1.«end» ≤ g →
      mergeCloseSegments g [s1, s2] = [{ mergeTwo s1 s2 with id := 0 }] := by
    intro g s1 s2 h
    rw [mergeCloseSegments, mergeGo, if_pos h]
    rfl
  have hsep : ∀ (g : ℚ) (s1 s2 : Segment), g < s2.start - s1.«end» →
      mergeCloseSegments g [s1, s2] = [{ s1 with id := 0 }, { s2 with id := 1 }] := by
    intro g s1 s2 h
    rw [mergeCloseSegments, mergeGo, if_neg (not_le.mpr h)]
    rfl
  refine ⟨fun g s1 s2 h => hpair g s1 s2 h, hsep, mergeCloseSegments_map_id, ?_, ?_⟩
  · rw [hpair 1000 seg0to5000 seg5500to9000 (by norm_num [seg0to5000, seg5500to9000])]
    have hm : mergeTwo seg0to5000 seg5500to9000 = mergedSeg0to9000 := by
      rw [mergeTwo]
      simp only [seg0to5000, seg5500to9000, mergedSeg0to9000]
      norm_num
      decide
    rw [hm]
    rfl
  · exact hsep 1000 seg0to5000 seg6500to9000 (by norm_num [seg0to5000, seg6500to9000])

/-- C8: in `smoothSpeakerTransitions`, an interior segment shorter than 2s
whose speaker differs from its two neighbours while they agree, with
assignment confidence below 0.8, is reassigned to the neighbours' speaker at
confidence 0.6; with confidence at or above 0.8 it keeps its speaker.  The
spec's concrete test (a 1.5s speaker-2 segment between two 10s speaker-1
segments, confidence 0.5 resp. 0.9) behaves as stated. -/
theorem smoothSpeakerTransitions_spec :
    (∀ a b c : DiarizedSegment, a.speaker = c.speaker → b.speaker ≠ a.speaker →
      b.«end» - b.start < 2 → b.speakerConfidence < 0.8 →
      smoothSpeakerTransitions [a, b, c] =
        [a, { b with speaker := a.speaker, speakerConfidence := 0.6 }, c]) ∧
    (∀ a b c : DiarizedSegment, 0.8 ≤ b.speakerConfidence →
      smoothSpeakerTransitions [a, b, c] = [a, b, c]) ∧
    smoothSpeakerTransitions [segSpeakerA1, segSpeakerB, segSpeakerA2] =
      [segSpeakerA1, { segSpeakerB with speaker := "speaker_1", speakerConfidence := 0.6 },
        segSpeakerA2] ∧
    smoothSpeakerTransitions [segSpeakerA1, segSpeakerBConfident, segSpeakerA2] =
      [segSpeakerA1, segSpeakerBConfident, segSpeakerA2] := by
  have hre : ∀ a b c : DiarizedSegment, a.speaker = c.speaker → b.speaker ≠ a.speaker →
      b.«end» - b.start < 2 → b.speakerConfidence < 0.8 →
      smoothSpeakerTransitions [a, b, c] =
        [a, { b with speaker := a.speaker, speakerConfidence := 0.6 }, c] := by
    intro a b c h1 h2 h3 h4
    rw [smoothSpeakerTransitions]
    simp only [smoothGo]
    rw [if_pos (show a.speaker = c.speaker ∧ b.speaker ≠ a.speaker ∧
      b.«end» - b.start < 2 ∧ b.speakerConfidence < 0.8 from ⟨h1, h2, h3, h4⟩)]
  have hkeep : ∀ a b c : DiarizedSegment, 0.8 ≤ b.speakerConfidence →
      smoothSpeakerTransitions [a, b, c] = [a, b, c] := by
    intro a b c h
    rw [smoothSpeakerTransitions]
    simp only [smoothGo]
    rw [if_neg (show ¬(a.speaker = c.speaker ∧ b.speaker ≠ a.speaker ∧
      b.«end» - b.start < 2 ∧ b.speakerConfidence < 0.8) from
      fun hcond => absurd hcond.2.2.2 (not_lt.mpr h))]
  refine ⟨hre, hkeep, ?_, ?_⟩
  · rw [hre segSpeakerA1 segSpeakerB segSpeakerA2 rfl (by decide)
      (by norm_num [segSpeakerB]) (by norm_num [segSpeakerB])]
    rfl
  · exact hkeep segSpeakerA1 segSpeakerBConfident segSpeakerA2
      (by norm_num [segSpeakerBConfident])

/-- Helper: a tick with capacity available and a non-empty queue admits
exactly the queue head. -/
theorem processQueue_eq_of_lt (s : SchedState) (j : Job) (rest : List Job)
    (hlt : s.processing.length < s.maxConcurrent) (hq : s.queue = j :: rest) :
    processQueue s = ⟨rest, j :: s.processing, s.maxConcurrent⟩ := by
  rw [processQueue, hq, if_neg (not_or.mpr ⟨not_le.mpr hlt, by simp⟩)]

/-- Helper: a tick at the concurrency bound, or with an empty queue, changes
nothing. -/
theorem processQueue_eq_self (s : SchedState)
    (h : s.maxConcurrent ≤ s.processing.length ∨ s.queue = []) :
    processQueue s = s := by
  rw [processQueue, if_pos h]

/-- Helper: splicing a job out of the queue yields a sublist. -/
theorem removeFirstById_sublist (q : List Job) (jobId : String) :
    List.Sublist (removeFirstById q jobId) q := by
  induction q with
  | nil => exact List.Sublist.refl []
  | cons j rest ih =>
    rw [removeFirstById]
    split_ifs
    · exact List.sublist_cons_self j rest
    · exact List.Sublist.cons₂ j ih

/-- Helper: every scheduler transition preserves the invariant. -/
theorem schedStep_preserves_inv {s t : SchedState} (hstep : SchedStep s t)
    (hinv : SchedInv s) : SchedInv t := by
  obtain ⟨hlen, hnodup⟩ := hinv
  cases hstep with
  | add j fresh =>
    refine ⟨hlen, ?_⟩
    have hperm : List.Perm (schedIds (addJob s j)) (j.id :: schedIds s) := by
      simp [schedIds, addJob]
    refine hperm.nodup_iff.mpr (List.nodup_cons.mpr ⟨?_, hnodup⟩)
    intro hm
    rw [schedIds, List.mem_map] at hm
    obtain ⟨k, hk, hke⟩ := hm
    exact fresh k hk hke
  | tick =>
    rcases le_or_lt s.maxConcurrent s.processing.length with hge | hlt
    · rw [processQueue_eq_self s (Or.inl hge)]
      exact ⟨hlen, hnodup⟩
    · cases hq : s.queue with
      | nil =>
        rw [processQueue_eq_self s (Or.inr hq)]
        exact ⟨hlen, hnodup⟩
      | cons j rest =>
        rw [processQueue_eq_of_lt s j rest hlt hq]
        constructor
        · simpa using hlt
        · have hperm : List.Perm ((rest ++ j :: s.processing).map Job.id) (schedIds s) := by
            rw [schedIds, hq]
            exact List.Perm.map Job.id List.perm_middle
          exact hperm.nodup_iff.mpr hnodup
  | finish jobId =>
    constructor
    · calc (s.processing.filter (fun j => j.id ≠ jobId)).length
          ≤ s.processing.length := List.length_filter_le _ _
        _ ≤ s.maxConcurrent := hlen
    · have hsub : List.Sublist (s.queue ++ s.processing.filter (fun j => j.id ≠ jobId))
          (s.queue ++ s.processing) :=
        List.Sublist.append_left (List.filter_sublist _) s.queue
      exact List.Nodup.sublist (hsub.map Job.id) hnodup
  | cancel jobId =>
    rw [cancelJob]
    split_ifs with h1 h2
    · refine ⟨hlen, ?_⟩
      have hsub : List.Sublist (removeFirstById s.queue jobId ++ s.processing)
          (s.queue ++ s.processing) :=
        List.Sublist.append_right (removeFirstById_sublist s.queue jobId) s.processing
      exact List.Nodup.sublist (hsub.map Job.id) hnodup
    · refine ⟨by simpa using hlen, ?_⟩
      have hids : List.map Job.id (s.processing.map (fun j =>
          if j.id = jobId then { j with status := JobStatus.cancelled } else j)) =
          List.map Job.id s.processing := by
        rw [List.map_map]
        apply List.map_congr_left
        intro j hj
        by_cases hid : j.id = jobId <;> simp [hid]
      dsimp only
      simp only [schedIds, List.map_append] at hnodup ⊢
      rw [hids]
      exact hnodup
    · exact ⟨hlen, hnodup⟩

/-- Helper: the invariant holds in every reachable scheduler state. -/
theorem schedReachable_inv (maxC : ℕ) (s : SchedState) (h : SchedReachable maxC s) :
    SchedInv s := by
  induction h with
  | refl => exact ⟨Nat.zero_le _, List.Pairwise.nil⟩
  | tail hsteps hstep ih => exact schedStep_preserves_inv hstep ih

/-- C6: in every reachable scheduler state the running (`processing`) set has
at most `maxConcurrent` members, no job id is in the pending queue and the
running set at once, and one `processQueue` tick admits a job exactly when
the running set is below the bound and the queue is non-empty — and then it
admits precisely the queue head (FIFO). -/
theorem scheduler_bounded_and_disjoint (maxC : ℕ) (s : SchedState)
    (h : SchedReachable maxC s) :
    s.processing.length ≤ s.maxConcurrent ∧
    (∀ j ∈ s.queue, ∀ k ∈ s.processing, j.id ≠ k.id) ∧
    (∀ (j : Job) (rest : List Job), s.processing.length < s.maxConcurrent →
      s.queue = j :: rest →
      processQueue s = ⟨rest, j :: s.processing, s.maxConcurrent⟩) ∧
    ((s.maxConcurrent ≤ s.processing.length ∨ s.queue = []) → processQueue s = s) := by
  obtain ⟨hlen, hnodup⟩ := schedReachable_inv maxC s h
  refine ⟨hlen, ?_, fun j rest hlt hq => processQueue_eq_of_lt s j rest hlt hq,
    fun hc => processQueue_eq_self s hc⟩
  have hd := (List.nodup_append.mp
    (by rwa [schedIds, List.map_append] at hnodup)).2.2
  intro j hj k hk heq
  exact hd (List.mem_map_of_mem Job.id hj) (by rw [heq]; exact List.mem_map_of_mem Job.id hk)

/-- Witness for C6 at a concrete reachable state: submit one job to an empty
scheduler with bound 2, then tick once. -/
theorem scheduler_bounded_and_disjoint_witness :
    schedW.processing.length ≤ schedW.maxConcurrent ∧
    (∀ j ∈ schedW.queue, ∀ k ∈ schedW.processing, j.id ≠ k.id) ∧
    (∀ (j : Job) (rest : List Job), schedW.processing.length < schedW.maxConcurrent →
      schedW.queue = j :: rest →
      processQueue schedW = ⟨rest, j :: schedW.processing, schedW.maxConcurrent⟩) ∧
    ((schedW.maxConcurrent ≤ schedW.processing.length ∨ schedW.queue = []) →
      processQueue schedW = schedW) :=
  scheduler_bounded_and_disjoint 2 schedW
    (Relation.ReflTransGen.tail
      (Relation.ReflTransGen.tail Relation.ReflTransGen.refl
        (SchedStep.add ⟨[], [], 2⟩ jobW (by simp)))
      (SchedStep.tick (addJob ⟨[], [], 2⟩ jobW)))

/-- Helper: characterization of the best-score fold of
`findOptimalClusters`: starting from a current best `(b, c)`, the fold ends
on a pair whose score bounds `b` and every visited score, and which is
either the starting pair (no strict improvement happened) or the last
strictly-improving `k`, in which case every earlier visited `k` scores
strictly below it. -/
theorem findOptimal_foldl_spec (kmeans : ℕ → List Cluster) :
    ∀ (ks : List ℕ) (b : ℝ) (c : List Cluster),
      ∃ s1 c1, ks.foldl (findOptimalStep kmeans) (some (b, c)) = some (s1, c1) ∧
        b ≤ s1 ∧ (∀ k ∈ ks, clusterScore kmeans k ≤ s1) ∧
        ((s1 = b ∧ c1 = c) ∨
          ∃ pre k post, ks = pre ++ k :: post ∧ s1 = clusterScore kmeans k ∧
            c1 = kmeans k ∧ b < clusterScore kmeans k ∧
            ∀ x ∈ pre, clusterScore kmeans x < clusterScore kmeans k) := by
  intro ks
  induction ks with
  | nil =>
    intro b c
    exact ⟨b, c, rfl, le_refl b, by simp, Or.inl ⟨rfl, rfl⟩⟩
  | cons k2 ks ih =>
    intro b c
    by_cases hlt : b < clusterScore kmeans k2
    · have hstep : findOptimalStep kmeans (some (b, c)) k2 =
          some (clusterScore kmeans k2, kmeans k2) := by
        rw [findOptimalStep]
        simp only [clusterScore] at hlt
        rw [if_pos hlt]
        rfl
      obtain ⟨s1, c1, hfold, hble, hall, hcases⟩ := ih (clusterScore kmeans k2) (kmeans k2)
      refine ⟨s1, c1, ?_, le_trans (le_of_lt hlt) hble, ?_, ?_⟩
      · rw [List.foldl_cons, hstep]
        exact hfold
      · intro k hk
        rcases List.mem_cons.mp hk with hk | hk
        · exact hk ▸ hble
        · exact hall k hk
      · rcases hcases with ⟨hs, hc⟩ | ⟨pre, k, post, hks, hs, hc, hb, hpre⟩
        · exact Or.inr ⟨[], k2, ks, rfl, hs, hc, hlt, by simp⟩
        · refine Or.inr ⟨k2 :: pre, k, post, by rw [hks]; rfl, hs, hc, lt_trans hlt hb, ?_⟩
          intro x hx
          rcases List.mem_cons.mp hx with hx | hx
          · exact hx ▸ hb
          · exact hpre x hx
    · have hstep : findOptimalStep kmeans (some (b, c)) k2 = some (b, c) := by
        rw [findOptimalStep]
        simp only [clusterScore] at hlt
        rw [if_neg hlt]
      obtain ⟨s1, c1, hfold, hble, hall, hcases⟩ := ih b c
      refine ⟨s1, c1, ?_, hble, ?_, ?_⟩
      · rw [List.foldl_cons, hstep]
        exact hfold
      · intro k hk
        rcases List.mem_cons.mp hk with hk | hk
        · exact hk ▸ le_trans (not_lt.mp hlt) hble
        · exact hall k hk
      · rcases hcases with hsame | ⟨pre, k, post, hks, hs, hc, hb, hpre⟩
        · exact Or.inl hsame
        · refine Or.inr ⟨k2 :: pre, k, post, by rw [hks]; rfl, hs, hc, hb, ?_⟩
          intro x hx
          rcases List.mem_cons.mp hx with hx | hx
          · exact hx ▸ lt_of_le_of_lt (not_lt.mp hlt) hb
          · exact hpre x hx

/-- C9 amended: with `numSpeakers = "auto"`, `findOptimalClusters` runs
k-means once for every `k` from `minSpeakers` to `maxSpeakers` inclusive
and returns the clustering whose `evaluateClusterQuality` mean silhouette
is maximal, ties resolved in favour of the smaller `k` (a later `k` is kept
only on a strict improvement).  This holds for every resolution `kmeans` of
the random k-means initialization.  Note the code's silhouette gives a
point alone in its cluster the perfect value 1, so the selected `k` for
well-separated data need not be the natural cluster count (see the
counterexample). -/
theorem findOptimalClusters_first_max (kmeans : ℕ → List Cluster) (minK maxK : ℕ)
    (h : minK ≤ maxK) :
    ∃ k0, minK ≤ k0 ∧ k0 ≤ maxK ∧
      findOptimalClusters kmeans minK maxK = kmeans k0 ∧
      (∀ k, minK ≤ k → k ≤ maxK → clusterScore kmeans k ≤ clusterScore kmeans k0) ∧
      (∀ k, minK ≤ k → k < k0 → clusterScore kmeans k < clusterScore kmeans k0) := by
  have hn : maxK + 1 - minK = (maxK - minK) + 1 := by omega
  have hrange : List.range' minK (maxK + 1 - minK) =
      minK :: List.range' (minK + 1) (maxK - minK) := by
    rw [hn, List.range'_succ]
  have hmem : ∀ k, k ∈ List.range' (minK + 1) (maxK - minK) ↔ minK + 1 ≤ k ∧ k ≤ maxK := by
    intro k
    rw [List.mem_range'_1]
    omega
  obtain ⟨s1, c1, hfold, hble, hall, hcases⟩ :=
    findOptimal_foldl_spec kmeans (List.range' (minK + 1) (maxK - minK))
      (clusterScore kmeans minK) (kmeans minK)
  have hres : findOptimalClusters kmeans minK maxK = c1 := by
    rw [findOptimalClusters, hrange, List.foldl_cons]
    rw [show findOptimalStep kmeans none minK =
      some (clusterScore kmeans minK, kmeans minK) from rfl]
    rw [hfold]
  rcases hcases with ⟨hs, hc⟩ | ⟨pre, k, post, hks, hs, hc, hb, hpre⟩
  · refine ⟨minK, le_refl _, h, by rw [hres, hc], ?_, ?_⟩
    · intro k hk1 hk2
      rcases eq_or_lt_of_le hk1 with he | hlt
      · rw [← he]
      · have : k ∈ List.range' (minK + 1) (maxK - minK) := (hmem k).mpr (by omega)
        exact le_trans (hall k this) (le_of_eq hs)
    · intro k hk1 hk2
      omega
  · have hkmem : minK + 1 ≤ k ∧ k ≤ maxK := (hmem k).mp (by rw [hks]; simp)
    refine ⟨k, by omega, hkmem.2, by rw [hres, hc], ?_, ?_⟩
    · intro x hx1 hx2
      rcases eq_or_lt_of_le hx1 with he | hlt
      · rw [← he]
        exact le_of_lt (hs ▸ hb)
      · have : x ∈ List.range' (minK + 1) (maxK - minK) := (hmem x).mpr (by omega)
        exact le_trans (hall x this) (le_of_eq hs)
    · intro x hx1 hx2
      rcases eq_or_lt_of_le hx1 with he | hlt
      · rw [← he]
        exact hs ▸ hb
      · have hxmem : x ∈ List.range' (minK + 1) (maxK - minK) :=
          (hmem x).mpr (by omega)
        have hxpre : x ∈ pre := by
          have hpw := List.pairwise_lt_range' (minK + 1) (maxK - minK)
          rw [hks] at hxmem hpw
          rcases List.mem_append.mp hxmem with hx | hx
          · exact hx
          · rcases List.mem_cons.mp hx with he | hx
            · omega
            · have := (List.pairwise_append.mp hpw).2.1
              have hk_lt_x : k < x := (List.pairwise_cons.mp this).1 x hx
              omega
        exact hs ▸ hpre x hxpre

/-- Helper: segment id of a pitch-only feature. -/
theorem pitchFeature_segmentId (i : ℕ) (x : ℝ) : (pitchFeature i x).segmentId = i := rfl

/-- Helper: the Euclidean feature distance of two pitch-only features. -/
theorem calculateDistance_pitch (i j : ℕ) (x y : ℝ) :
    calculateDistance (pitchFeature i x) (pitchFeature j y) = |x - y| := by
  rw [calculateDistance, pitchFeature, pitchFeature]
  simp
  rw [Real.sqrt_sq_eq_abs]

/-- Helper: mean silhouette of the natural 2-clustering. -/
theorem evalQuality_k2 :
    evaluateClusterQuality [⟨[fA, fB]⟩, ⟨[fC, fD]⟩] = 161 / 180 := by
  rw [evaluateClusterQuality]
  norm_num [silhouetteOfPoint, averageIntraClusterDistance, nearestClusterDistance,
    List.enum, List.enumFrom, fA, fB, fC, fD, calculateDistance_pitch, pitchFeature_segmentId]

/-- Helper: mean silhouette of the natural 3-clustering; the two singleton
clusters each contribute a perfect silhouette of 1. -/
theorem evalQuality_k3 :
    evaluateClusterQuality [⟨[fA, fB]⟩, ⟨[fC]⟩, ⟨[fD]⟩] = 341 / 360 := by
  rw [evaluateClusterQuality]
  norm_num [silhouetteOfPoint, averageIntraClusterDistance, nearestClusterDistance,
    List.enum, List.enumFrom, fA, fB, fC, fD, calculateDistance_pitch, pitchFeature_segmentId]

/-- Helper: mean silhouette of the all-singletons clustering is the perfect
score 1: the code returns intra-cluster distance 0 for singleton clusters,
so each point scores `(b - 0) / max 0 b = 1`. -/
theorem evalQuality_k4 :
    evaluateClusterQuality [⟨[fA]⟩, ⟨[fB]⟩, ⟨[fC]⟩, ⟨[fD]⟩] = 1 := by
  rw [evaluateClusterQuality]
  norm_num [silhouetteOfPoint, averageIntraClusterDistance, nearestClusterDistance,
    List.enum, List.enumFrom, fA, fB, fC, fD, calculateDistance_pitch, pitchFeature_segmentId]

/-- C9 counterexample: the feature vectors `fA fB fC fD` (pitches 0, 1, 10,
11) form two well-separated clusters (intra-cluster distance 1, separation
at least 9), `minSpeakers = 2`, `maxSpeakers = 4`, and k-means resolves to
the natural partition for each `k`; yet `findOptimalClusters` selects the
`k = 4` all-singletons clustering — not `k = 2` as the claim states —
because the code's silhouette scores every singleton cluster at the maximal
value 1 (mean 1 > 161/180, the `k = 2` mean). -/
theorem auto_cluster_selection_cex :
    findOptimalClusters kmeansNat 2 4 = kmeansNat 4 ∧
    kmeansNat 4 ≠ kmeansNat 2 ∧
    evaluateClusterQuality (kmeansNat 2) < evaluateClusterQuality (kmeansNat 4) := by
  have h2 : evaluateClusterQuality (kmeansNat 2) = 161 / 180 := evalQuality_k2
  have h3 : evaluateClusterQuality (kmeansNat 3) = 341 / 360 := evalQuality_k3
  have h4 : evaluateClusterQuality (kmeansNat 4) = 1 := evalQuality_k4
  have hstep2 : findOptimalStep kmeansNat
      (some (evaluateClusterQuality (kmeansNat 2), kmeansNat 2)) 3 =
      some (evaluateClusterQuality (kmeansNat 3), kmeansNat 3) := by
    simp only [findOptimalStep]
    rw [if_pos (by rw [h2, h3]; norm_num)]
  have hstep3 : findOptimalStep kmeansNat
      (some (evaluateClusterQuality (kmeansNat 3), kmeansNat 3)) 4 =
      some (evaluateClusterQuality (kmeansNat 4), kmeansNat 4) := by
    simp only [findOptimalStep]
    rw [if_pos (by rw [h3, h4]; norm_num)]
  refine ⟨?_, ?_, by rw [h2, h4]; norm_num⟩
  · rw [findOptimalClusters]
    rw [show List.range' 2 (4 + 1 - 2) = [2, 3, 4] from rfl]
    rw [List.foldl_cons, List.foldl_cons, List.foldl_cons, List.foldl_nil]
    rw [show findOptimalStep kmeansNat none 2 =
      some (evaluateClusterQuality (kmeansNat 2), kmeansNat 2) from rfl]
    rw [hstep2, hstep3]
  · intro h
    have hlen := congrArg List.length h
    simp [kmeansNat] at hlen


/-- Witness for C9's selection theorem at `kmeansNat`, `minK = 2`,
`maxK = 4`. -/
theorem findOptimalClusters_first_max_witness :
    ∃ k0, 2 ≤ k0 ∧ k0 ≤ 4 ∧
      findOptimalClusters kmeansNat 2 4 = kmeansNat k0 ∧
      (∀ k, 2 ≤ k → k ≤ 4 → clusterScore kmeansNat k ≤ clusterScore kmeansNat k0) ∧
      (∀ k, 2 ≤ k → k < k0 → clusterScore kmeansNat k < clusterScore kmeansNat k0) :=
  findOptimalClusters_first_max kmeansNat 2 4 (by norm_num)

